import Mathlib

/-!
Verification development for the heartkit/ecgarr LUDB dataset layer
(`ecgarr/datasets/ludb.py`).  The Python source is shallowly embedded:
the annotation scan of `convert_pt_wfdb_to_hdf5`, the label painting and
random windowing of `segmentation_generator`, the patient iteration loop
of `uniform_patient_generator`, and the store effect of the bulk
conversion.  Sample indices that Python treats as machine ints are
modelled as `Nat`/`Int`; Python `Option`-like `None` is `Option`;
Python truthiness on `seg_start and sym_id` is modelled explicitly.
-/

namespace Ludb

/-- `LudbSymbolMap` (ludb.py:25-30): class symbol to class id.
`o` (Other) maps to class id 0. -/
def LudbSymbolMap (c : Char) : Option Nat :=
  if c = 'o' then some 0
  else if c = 'p' then some 1
  else if c = 'N' then some 2
  else if c = 't' then some 3
  else none

/-- One reconstructed interval: row `[lead_id, sym_id, seg_start, seg_stop]`
appended to `segs` (ludb.py:237). -/
structure SegInt where
  lead_id : Nat
  sym_id : Nat
  seg_start : Nat
  seg_stop : Nat
  deriving DecidableEq, Repr

/-- One fiducial point: row `[lead_id, sym_id, sample]` appended to `fids`
(ludb.py:233). -/
structure FidPt where
  lead_id : Nat
  sym_id : Nat
  sample : Nat
  deriving DecidableEq, Repr

/-- The per-lead scan variables `seg_start`, `seg_stop`, `sym_id`
(ludb.py:221), each either `None` or a sample/class value. -/
structure AnnState where
  seg_start : Option Nat
  seg_stop : Option Nat
  sym_id : Option Nat
  deriving DecidableEq, Repr

/-- Scan accumulator: the state variables plus the `segs` and `fids`
output lists. -/
structure ScanAcc where
  st : AnnState
  segs : List SegInt
  fids : List FidPt
  deriving DecidableEq, Repr

/-- Python truthiness of an optional int: `None` and `0` are falsy.
This is exactly the test `seg_start and sym_id` performs on
ludb.py:235. -/
def optTruthy : Option Nat → Bool
  | some v => v != 0
  | none => false

/-- One iteration of the symbol loop of `convert_pt_wfdb_to_hdf5`
(ludb.py:223-240).  Branches, in source order: `(` opens an interval;
a class symbol sets `sym_id`, implicitly opens, and emits a fiducial;
a `)` with truthy `seg_start` and truthy `sym_id` emits an interval
(note: the source does NOT clear `seg_start`/`sym_id` here); anything
else resets all three state variables. -/
def annStep (lead : Nat) (acc : ScanAcc) : Char × Nat → ScanAcc
  | (ch, s) =>
    if ch = '(' then
      { acc with st := ⟨some s, none, acc.st.sym_id⟩ }
    else if (LudbSymbolMap ch).isSome then
      { st := ⟨(if acc.st.seg_start = none then some s else acc.st.seg_start),
               acc.st.seg_stop, some ((LudbSymbolMap ch).getD 0)⟩,
        segs := acc.segs,
        fids := acc.fids ++ [⟨lead, (LudbSymbolMap ch).getD 0, s⟩] }
    else if ch = ')' ∧ optTruthy acc.st.seg_start ∧ optTruthy acc.st.sym_id then
      { st := ⟨acc.st.seg_start, some s, acc.st.sym_id⟩,
        segs := acc.segs ++
          [⟨lead, acc.st.sym_id.getD 0, acc.st.seg_start.getD 0, s⟩],
        fids := acc.fids }
    else
      { st := ⟨none, none, none⟩, segs := acc.segs, fids := acc.fids }

/-- Scan one lead's ordered marker stream from the reset state
(ludb.py:221-241). -/
def annScan (lead : Nat) (events : List (Char × Nat)) : ScanAcc :=
  events.foldl (annStep lead) ⟨⟨none, none, none⟩, [], []⟩

/-- Python truthiness of an optional value holds exactly for a set, nonzero
value. -/
theorem optTruthy_iff (o : Option Nat) :
    optTruthy o = true ↔ ∃ v, o = some v ∧ v ≠ 0 := by
  cases o with
  | none => simp [optTruthy]
  | some v => simp [optTruthy, bne_iff_ne]

/-- A recognized class symbol is not the interval-open marker. -/
theorem symbolMap_ne_lparen {ch : Char}
    (hsym : (LudbSymbolMap ch).isSome = true) : ch ≠ '(' := by
  intro h
  subst h
  exact absurd hsym (by decide)

/-- Behaviour of one scan step on an interval-open event (ludb.py:225-227). -/
theorem annStep_open (lead s : Nat) (acc : ScanAcc) :
    annStep lead acc ('(', s) = { acc with st := ⟨some s, none, acc.st.sym_id⟩ } := by
  simp only [annStep]
  rw [if_pos trivial]

/-- Behaviour of one scan step on a class-symbol event (ludb.py:229-233). -/
theorem annStep_classSym (lead s : Nat) (acc : ScanAcc) (ch : Char)
    (hsym : (LudbSymbolMap ch).isSome = true) :
    annStep lead acc (ch, s) =
      { st := ⟨(if acc.st.seg_start = none then some s else acc.st.seg_start),
               acc.st.seg_stop, some ((LudbSymbolMap ch).getD 0)⟩,
        segs := acc.segs,
        fids := acc.fids ++ [⟨lead, (LudbSymbolMap ch).getD 0, s⟩] } := by
  simp only [annStep]
  rw [if_neg (symbolMap_ne_lparen hsym), if_pos hsym]

/-- Behaviour of one scan step on an interval-close event (ludb.py:235-240):
emission is guarded by Python truthiness of both pending values and the
pending values are not cleared on emission. -/
theorem annStep_close (lead s : Nat) (acc : ScanAcc) :
    annStep lead acc (')', s) =
      if optTruthy acc.st.seg_start ∧ optTruthy acc.st.sym_id then
        { st := ⟨acc.st.seg_start, some s, acc.st.sym_id⟩,
          segs := acc.segs ++
            [⟨lead, acc.st.sym_id.getD 0, acc.st.seg_start.getD 0, s⟩],
          fids := acc.fids }
      else { st := ⟨none, none, none⟩, segs := acc.segs, fids := acc.fids } := by
  simp only [annStep]
  rw [if_neg (by decide : ¬((')' : Char) = '(')),
      if_neg (by decide : ¬((LudbSymbolMap ')').isSome = true))]
  by_cases h : optTruthy acc.st.seg_start = true ∧ optTruthy acc.st.sym_id = true
  · rw [if_pos ⟨trivial, h.1, h.2⟩, if_pos h]
  · rw [if_neg (fun hc => h ⟨hc.2.1, hc.2.2⟩), if_neg h]

/-- C1, counterexample: after `[open@100, class=o@105]` both pending values
are set (`seg_start = some 100`, `sym_id = some 0`), yet the interval-close
at sample 120 emits no interval: the valid class id 0 (the `o` class) is
conflated with unset by the truthiness test on ludb.py:235. -/
theorem close_zero_class_suppressed_cex :
    (annScan 0 [('(', 100), ('o', 105)]).st = ⟨some 100, none, some 0⟩
  ∧ (annScan 0 [('(', 100), ('o', 105), (')', 120)]).segs = [] := by decide

/-- C1, amended: on an interval-close the scan emits an interval iff both
`seg_start` and `sym_id` are set AND nonzero; a set-but-zero pending class
(the valid `o` class, id 0) or a set-but-zero pending start sample is
conflated with unset and suppresses emission.  When emission happens the
interval is `⟨lead, pending class, pending start, close sample⟩`. -/
theorem close_emission_iff (lead s : Nat) (acc : ScanAcc) :
    ((annStep lead acc (')', s)).segs ≠ acc.segs ↔
        (∃ a, acc.st.seg_start = some a ∧ a ≠ 0) ∧
        (∃ c, acc.st.sym_id = some c ∧ c ≠ 0))
  ∧ (∀ a c, acc.st.seg_start = some a → acc.st.sym_id = some c → a ≠ 0 → c ≠ 0 →
      (annStep lead acc (')', s)).segs = acc.segs ++ [⟨lead, c, a, s⟩]) := by
  constructor
  · rw [annStep_close]
    by_cases h : optTruthy acc.st.seg_start = true ∧ optTruthy acc.st.sym_id = true
    · rw [if_pos h]
      constructor
      · intro _
        exact ⟨(optTruthy_iff _).1 h.1, (optTruthy_iff _).1 h.2⟩
      · intro _
        intro heq
        have hl := congrArg List.length heq
        simp at hl
    · rw [if_neg h]
      constructor
      · intro hne
        exact absurd rfl hne
      · rintro ⟨⟨a, ha, ha0⟩, ⟨c, hc, hc0⟩⟩
        exact absurd ⟨(optTruthy_iff _).2 ⟨a, ha, ha0⟩,
          (optTruthy_iff _).2 ⟨c, hc, hc0⟩⟩ h
  · intro a c ha hc ha0 hc0
    rw [annStep_close,
      if_pos ⟨(optTruthy_iff _).2 ⟨a, ha, ha0⟩, (optTruthy_iff _).2 ⟨c, hc, hc0⟩⟩]
    simp [ha, hc]

/-- Witness for `close_emission_iff` at a concrete pending state. -/
theorem close_emission_iff_witness :
    (annStep 0 ⟨⟨some 100, none, some 2⟩, [], []⟩ (')', 120)).segs
      = [] ++ [⟨0, 2, 100, 120⟩] :=
  (close_emission_iff 0 120 ⟨⟨some 100, none, some 2⟩, [], []⟩).2 100 2 rfl rfl
    (by decide) (by decide)

/-- C3, counterexample: the stream `[open@100, class=N@105, close@120,
close@130]` emits TWO intervals: the second close, with no intervening
interval-open or class-symbol event, re-emits because the close branch
(ludb.py:235-237) never clears `seg_start`/`sym_id`. -/
theorem double_close_cex :
    (annScan 0 [('(', 100), ('N', 105), (')', 120), (')', 130)]).segs
      = [⟨0, 2, 100, 120⟩, ⟨0, 2, 100, 130⟩] := by decide

/-- C3, amended: an emitting interval-close does NOT clear the pending
state: `seg_start` and `sym_id` keep their values (only `seg_stop` is set),
so a second close with no intervening event emits a second interval with
the same start and class and the new close sample. -/
theorem close_retains_pending (lead s s' a c : Nat) (acc : ScanAcc)
    (ha : acc.st.seg_start = some a) (hc : acc.st.sym_id = some c)
    (ha0 : a ≠ 0) (hc0 : c ≠ 0) :
    (annStep lead acc (')', s)).st.seg_start = some a
  ∧ (annStep lead acc (')', s)).st.sym_id = some c
  ∧ (annStep lead (annStep lead acc (')', s)) (')', s')).segs
      = acc.segs ++ [⟨lead, c, a, s⟩, ⟨lead, c, a, s'⟩] := by
  have htr : optTruthy acc.st.seg_start = true ∧ optTruthy acc.st.sym_id = true :=
    ⟨(optTruthy_iff _).2 ⟨a, ha, ha0⟩, (optTruthy_iff _).2 ⟨c, hc, hc0⟩⟩
  have h1 : annStep lead acc (')', s)
      = { st := ⟨acc.st.seg_start, some s, acc.st.sym_id⟩,
          segs := acc.segs ++
            [⟨lead, acc.st.sym_id.getD 0, acc.st.seg_start.getD 0, s⟩],
          fids := acc.fids } := by
    rw [annStep_close, if_pos htr]
  have htr2 : optTruthy (⟨acc.st.seg_start, some s, acc.st.sym_id⟩ : AnnState).seg_start = true
      ∧ optTruthy (⟨acc.st.seg_start, some s, acc.st.sym_id⟩ : AnnState).sym_id = true := htr
  have h2 : annStep lead
        ({ st := ⟨acc.st.seg_start, some s, acc.st.sym_id⟩,
           segs := acc.segs ++
             [⟨lead, acc.st.sym_id.getD 0, acc.st.seg_start.getD 0, s⟩],
           fids := acc.fids } : ScanAcc) (')', s')
      = { st := ⟨acc.st.seg_start, some s', acc.st.sym_id⟩,
          segs := (acc.segs ++
            [⟨lead, acc.st.sym_id.getD 0, acc.st.seg_start.getD 0, s⟩]) ++
            [⟨lead, acc.st.sym_id.getD 0, acc.st.seg_start.getD 0, s'⟩],
          fids := acc.fids } := by
    rw [annStep_close, if_pos htr2]
  refine ⟨?_, ?_, ?_⟩
  · rw [h1, ha]
  · rw [h1, hc]
  · rw [h1, h2]
    simp [ha, hc]

/-- Witness for `close_retains_pending` at a concrete pending state. -/
theorem close_retains_pending_witness :
    (annStep 0 (annStep 0 ⟨⟨some 100, none, some 2⟩, [], []⟩ (')', 120))
        (')', 130)).segs
      = [] ++ [⟨0, 2, 100, 120⟩, ⟨0, 2, 100, 130⟩] :=
  (close_retains_pending 0 120 130 100 2 ⟨⟨some 100, none, some 2⟩, [], []⟩
    rfl rfl (by decide) (by decide)).2.2

/-- One balanced open / class-symbol / close triple of marker events:
open at sample `a`, class symbol `sym` at sample `m`, close at sample `b`. -/
structure AnnTriple where
  a : Nat
  sym : Char
  m : Nat
  b : Nat
  deriving DecidableEq, Repr

/-- The three marker events of a balanced triple, in stream order. -/
def tripleEvents (t : AnnTriple) : List (Char × Nat) :=
  [('(', t.a), (t.sym, t.m), (')', t.b)]

/-- The class id of a triple's class symbol. -/
def tripleClass (t : AnnTriple) : Nat := (LudbSymbolMap t.sym).getD 0

/-- A triple the scan handles without falsy-value conflation: nonzero open
sample, a recognized class symbol of nonzero class id, and open before
close. -/
def goodTriple (t : AnnTriple) : Prop :=
  t.a ≠ 0 ∧ t.a < t.b ∧ (LudbSymbolMap t.sym).isSome = true ∧ tripleClass t ≠ 0

instance (t : AnnTriple) : Decidable (goodTriple t) := by
  unfold goodTriple
  infer_instance

/-- The interval a balanced triple should reconstruct to. -/
def tripleSeg (lead : Nat) (t : AnnTriple) : SegInt :=
  ⟨lead, tripleClass t, t.a, t.b⟩

/-- The fiducial point a balanced triple's class symbol should produce. -/
def tripleFid (lead : Nat) (t : AnnTriple) : FidPt :=
  ⟨lead, tripleClass t, t.m⟩

/-- Scan of a stream made of balanced triples. -/
def annScanTriples (lead : Nat) (ts : List AnnTriple) : ScanAcc :=
  annScan lead (ts.map tripleEvents).flatten

/-- Processing one good triple from any scan state appends exactly one
interval and one fiducial. -/
theorem annScan_triple (lead : Nat) (acc : ScanAcc) (t : AnnTriple)
    (h : goodTriple t) :
    List.foldl (annStep lead) acc (tripleEvents t) =
      ⟨⟨some t.a, some t.b, some (tripleClass t)⟩,
       acc.segs ++ [tripleSeg lead t], acc.fids ++ [tripleFid lead t]⟩ := by
  obtain ⟨ha0, hab, hsym, hc0⟩ := h
  have h1 : annStep lead acc ('(', t.a)
      = { acc with st := ⟨some t.a, none, acc.st.sym_id⟩ } :=
    annStep_open lead t.a acc
  have h2 : annStep lead ({ acc with st := ⟨some t.a, none, acc.st.sym_id⟩ } : ScanAcc)
        (t.sym, t.m)
      = { st := ⟨some t.a, none, some (tripleClass t)⟩, segs := acc.segs,
          fids := acc.fids ++ [tripleFid lead t] } := by
    rw [annStep_classSym lead t.m _ t.sym hsym]
    rfl
  have h3 : annStep lead (⟨⟨some t.a, none, some (tripleClass t)⟩,
        acc.segs, acc.fids ++ [tripleFid lead t]⟩ : ScanAcc)
        (')', t.b)
      = ⟨⟨some t.a, some t.b, some (tripleClass t)⟩,
         acc.segs ++ [tripleSeg lead t], acc.fids ++ [tripleFid lead t]⟩ := by
    rw [annStep_close, if_pos ⟨(optTruthy_iff _).2 ⟨t.a, rfl, ha0⟩,
      (optTruthy_iff _).2 ⟨tripleClass t, rfl, hc0⟩⟩]
    rfl
  simp only [tripleEvents, List.foldl_cons, List.foldl_nil]
  rw [h1, h2, h3]

/-- Scanning a stream of good triples from any accumulator appends exactly
the per-triple intervals and fiducials, in order. -/
theorem annScanTriples_steps (lead : Nat) (ts : List AnnTriple)
    (h : ∀ t ∈ ts, goodTriple t) (acc : ScanAcc) :
    ∃ st, List.foldl (annStep lead) acc (ts.map tripleEvents).flatten
      = ⟨st, acc.segs ++ ts.map (tripleSeg lead),
             acc.fids ++ ts.map (tripleFid lead)⟩ := by
  induction ts generalizing acc with
  | nil =>
    refine ⟨acc.st, ?_⟩
    simp
  | cons t ts ih =>
    have hjoin : ((t :: ts).map tripleEvents).flatten
        = tripleEvents t ++ (ts.map tripleEvents).flatten := by
      simp
    rw [hjoin, List.foldl_append,
      annScan_triple lead acc t (h t (List.mem_cons_self t ts))]
    obtain ⟨st, hst⟩ := ih (fun u hu => h u (List.mem_cons_of_mem t hu))
      ⟨⟨some t.a, some t.b, some (tripleClass t)⟩,
       acc.segs ++ [tripleSeg lead t], acc.fids ++ [tripleFid lead t]⟩
    refine ⟨st, ?_⟩
    rw [hst]
    simp

/-- C4, counterexample: the balanced triple `[open@0, class=N@5, close@20]`
yields its fiducial point but NO interval — the open sample 0 is falsy, so
the close on ludb.py:235 treats the pending interval as absent. -/
theorem balanced_triple_zero_start_cex :
    (annScan 0 [('(', 0), ('N', 5), (')', 20)]).segs = []
  ∧ (annScan 0 [('(', 0), ('N', 5), (')', 20)]).fids = [⟨0, 2, 5⟩] := by decide

/-- C4, amended: for a marker stream of balanced open/class/close triples
whose open samples are nonzero, whose class symbols are recognized with
nonzero class id, and whose open sample precedes the close sample, the scan
produces exactly one interval per triple with start < stop and exactly one
fiducial point per class-symbol event; in particular
`[open@100, class=N@105, close@120]` yields interval `⟨lead, 2, 100, 120⟩`
and fiducial `⟨lead, 2, 105⟩`. -/
theorem balanced_triples_scan (lead : Nat) (ts : List AnnTriple)
    (h : ∀ t ∈ ts, goodTriple t) :
    (annScanTriples lead ts).segs = ts.map (tripleSeg lead)
  ∧ (annScanTriples lead ts).fids = ts.map (tripleFid lead)
  ∧ ∀ g ∈ (annScanTriples lead ts).segs, g.seg_start < g.seg_stop := by
  obtain ⟨st, hst⟩ := annScanTriples_steps lead ts h ⟨⟨none, none, none⟩, [], []⟩
  have he : annScanTriples lead ts
      = ⟨st, ts.map (tripleSeg lead), ts.map (tripleFid lead)⟩ := by
    rw [annScanTriples, annScan, hst]
    simp
  refine ⟨by rw [he], by rw [he], ?_⟩
  rw [he]
  intro g hg
  simp only [List.mem_map] at hg
  obtain ⟨t, ht, rfl⟩ := hg
  exact (h t ht).2.1

/-- Witness for `balanced_triples_scan`: the spec's concrete scenario. -/
theorem balanced_triples_scan_witness :
    (annScanTriples 0 [⟨100, 'N', 105, 120⟩]).segs = [⟨0, 2, 100, 120⟩]
  ∧ (annScanTriples 0 [⟨100, 'N', 105, 120⟩]).fids = [⟨0, 2, 105⟩] := by
  have h := balanced_triples_scan 0 [⟨100, 'N', 105, 120⟩] (by decide)
  exact ⟨h.1.trans (by decide), h.2.1.trans (by decide)⟩

/-- Whether the slice assignment of interval `g` (ludb.py:142,
`labels[seg[2] : seg[3], seg[0]] = seg[1]`) touches sample `s` of lead `l`:
the assigned range is stop-exclusive. -/
def coversB (g : SegInt) (s : Int) (l : Nat) : Bool :=
  decide (l = g.lead_id) && decide ((g.seg_start : Int) ≤ s)
    && decide (s < (g.seg_stop : Int))

/-- Painting one interval over a label buffer: samples in
`[seg_start, seg_stop)` of the interval's lead receive its class id, all
other entries keep the previous buffer value (ludb.py:142). -/
def paintOne (buf : Int → Nat → Nat) (g : SegInt) : Int → Nat → Nat :=
  fun s l => if coversB g s l then g.sym_id else buf s l

/-- The label buffer of `segmentation_generator` (ludb.py:139-142): paint
every interval, in iteration order, over a zero-initialized buffer. -/
def paintLabels (segs : List SegInt) : Int → Nat → Nat :=
  segs.foldl paintOne (fun _ _ => 0)

/-- C8: the painted buffer keeps class 0 at every sample covered by no
interval, and at every covered sample it holds the class of the LAST
interval in iteration order covering that sample and lead — later painted
intervals overwrite earlier ones over the whole overlap (last-write-wins). -/
theorem paintLabels_last_write_wins (segs : List SegInt) (s : Int) (l : Nat) :
    paintLabels segs s l
      = (((segs.filter (fun g => coversB g s l)).getLast?).map SegInt.sym_id).getD 0 := by
  induction segs using List.reverseRecOn with
  | nil => rfl
  | append_singleton gs g ih =>
    have hfold : paintLabels (gs ++ [g]) = paintOne (paintLabels gs) g := by
      rw [paintLabels, List.foldl_append]
      rfl
    rw [hfold]
    simp only [paintOne]
    by_cases hcov : coversB g s l = true
    · rw [if_pos hcov, List.filter_append]
      simp [hcov, List.getLast?_concat]
    · rw [if_neg hcov, List.filter_append]
      simp [hcov, ih]

/-- C10: painting is stop-exclusive.  A sample in
`[seg_start, seg_stop)` on the interval's lead receives the class id; the
sample at index `seg_stop` is left untouched by that interval, and with
that interval alone it keeps class 0. -/
theorem paint_stop_exclusive (g : SegInt) (buf : Int → Nat → Nat) (s : Int)
    (h1 : (g.seg_start : Int) ≤ s) (h2 : s < (g.seg_stop : Int)) :
    paintOne buf g s g.lead_id = g.sym_id
  ∧ (∀ l, paintOne buf g (g.seg_stop : Int) l = buf (g.seg_stop : Int) l)
  ∧ paintLabels [g] (g.seg_stop : Int) g.lead_id = 0 := by
  refine ⟨?_, ?_, ?_⟩
  · simp only [paintOne]
    rw [if_pos]
    simp [coversB, h1, h2]
  · intro l
    simp only [paintOne]
    rw [if_neg]
    simp [coversB, lt_self_iff_false]
  · simp only [paintLabels, List.foldl_cons, List.foldl_nil, paintOne]
    rw [if_neg]
    simp [coversB, lt_self_iff_false]

/-- Witness for `paint_stop_exclusive` at a concrete interval. -/
theorem paint_stop_exclusive_witness :
    paintOne (fun _ _ => 7) ⟨0, 2, 100, 120⟩ 105 0 = 2
  ∧ (∀ l, paintOne (fun _ _ => 7) ⟨0, 2, 100, 120⟩ 120 l = 7)
  ∧ paintLabels [⟨0, 2, 100, 120⟩] 120 0 = 0 :=
  paint_stop_exclusive ⟨0, 2, 100, 120⟩ (fun _ _ => 7) 105
    (by decide) (by decide)

/-- `numpy.random.randint(low, high)` drawing from an abstract random source
`r`: uniform over `[low, high)` and a `ValueError` (message "low >= high")
when the range is empty.  Any value the source can produce is
`low + r % (high - low)` for some `r`. -/
def npRandint (lo hi : Int) (r : Nat) : Except String Int :=
  if lo < hi then .ok (lo + (r : Int) % (hi - lo)) else .error "low >= high"

/-- A successful randint draw lies in `[lo, hi)`. -/
theorem npRandint_ok (lo hi : Int) (r : Nat) (v : Int)
    (h : npRandint lo hi r = .ok v) : lo ≤ v ∧ v < hi := by
  unfold npRandint at h
  by_cases hlt : lo < hi
  · rw [if_pos hlt] at h
    have hv : lo + (r : Int) % (hi - lo) = v := by
      injection h
    subst hv
    have hb0 : (0 : Int) < hi - lo := sub_pos.2 hlt
    constructor
    · exact le_add_of_nonneg_right (Int.emod_nonneg _ (ne_of_gt hb0))
    · have hlt2 := Int.emod_lt_of_pos (r : Int) hb0
      linarith
  · rw [if_neg hlt] at h
    cases h

/-- One `(signal_window, label_window)` pair yielded by
`segmentation_generator` (ludb.py:151-159); the `(frame_size, 1)` reshape
is the identity on the underlying values, so windows are plain lists. -/
structure SegSample where
  x : List Int
  y : List Nat
  deriving DecidableEq, Repr

/-- One sample emitted by `segmentation_generator`'s inner loop
(ludb.py:143-159): pick a lead uniformly, pick a frame start in
`[start_offset, num_samples - frame_size - stop_offset)`, slice the signal
and the painted label buffer over `[frame_start, frame_start + frame_size)`
of the chosen lead. -/
def sampleFrame (frame_size : Nat) (so eo ns : Int) (nl : Nat)
    (data : Int → Nat → Int) (labels : Int → Nat → Nat)
    (rl rf : Nat) : Except String SegSample :=
  match npRandint 0 (nl : Int) rl with
  | .error e => .error e
  | .ok leadZ =>
    match npRandint so (ns - (frame_size : Int) - eo) rf with
    | .error e => .error e
    | .ok fs =>
      .ok ⟨(List.range frame_size).map (fun i => data (fs + (i : Int)) leadZ.toNat),
           (List.range frame_size).map (fun i => labels (fs + (i : Int)) leadZ.toNat)⟩

/-- The sequence of samples one patient contributes in
`segmentation_generator` (ludb.py:135-159): the label buffer is painted from
the patient's intervals, then `n` random windows are drawn; a failed draw
propagates out of the generator before any window of this patient from that
draw onward is yielded. -/
def segmentation_generator_pt (frame_size : Nat) (so eo ns : Int) (nl : Nat)
    (data : Int → Nat → Int) (segs : List SegInt) (rl rf : Nat → Nat) :
    Nat → Except String (List SegSample)
  | 0 => .ok []
  | n+1 =>
    match segmentation_generator_pt frame_size so eo ns nl data segs rl rf n with
    | .error e => .error e
    | .ok acc =>
      match sampleFrame frame_size so eo ns nl data (paintLabels segs)
          (rl n) (rf n) with
      | .error e => .error e
      | .ok smp => .ok (acc ++ [smp])

/-- With an empty sampling range the frame draw fails before producing a
window. -/
theorem sampleFrame_empty_range (frame_size : Nat) (so eo ns : Int) (nl : Nat)
    (data : Int → Nat → Int) (labels : Int → Nat → Nat) (rl rf : Nat)
    (hrange : ns - (frame_size : Int) - eo ≤ so) (hleads : 0 < nl) :
    sampleFrame frame_size so eo ns nl data labels rl rf
      = .error "low >= high" := by
  unfold sampleFrame
  have h1 : npRandint 0 (nl : Int) rl = .ok (0 + (rl : Int) % ((nl : Int) - 0)) := by
    unfold npRandint
    rw [if_pos (by exact_mod_cast hleads)]
  have h2 : npRandint so (ns - (frame_size : Int) - eo) rf = .error "low >= high" := by
    unfold npRandint
    rw [if_neg (not_lt.2 hrange)]
  rw [h1, h2]

/-- C5: whenever `num_samples - frame_size - stop_offset ≤ start_offset`
(empty sampling range) the generator fails with the randint range error
before emitting any window for the record, for any positive number of
requested samples. -/
theorem segmentation_generator_empty_range_errors (frame_size : Nat)
    (so eo ns : Int) (nl : Nat) (data : Int → Nat → Int) (segs : List SegInt)
    (rl rf : Nat → Nat) (n : Nat)
    (hrange : ns - (frame_size : Int) - eo ≤ so) (hleads : 0 < nl) (hn : 0 < n) :
    segmentation_generator_pt frame_size so eo ns nl data segs rl rf n
      = .error "low >= high" := by
  induction n with
  | zero => exact absurd hn (lt_irrefl 0)
  | succ m ih =>
    rcases Nat.eq_zero_or_pos m with h0 | hpos
    · subst h0
      simp only [segmentation_generator_pt]
      rw [sampleFrame_empty_range frame_size so eo ns nl data (paintLabels segs)
        (rl 0) (rf 0) hrange hleads]
    · simp only [segmentation_generator_pt]
      rw [ih hpos]

/-- Witness for `segmentation_generator_empty_range_errors`:
frame_size 50, offsets 10/10, record length 60 — the range is empty and the
draw errors. -/
theorem segmentation_generator_empty_range_errors_witness :
    segmentation_generator_pt 50 10 10 60 1 (fun _ _ => 0) []
        (fun _ => 0) (fun _ => 0) 1
      = .error "low >= high" :=
  segmentation_generator_empty_range_errors 50 10 10 60 1 (fun _ _ => 0) []
    (fun _ => 0) (fun _ => 0) 1 (by decide) (by decide) (by decide)

/-- A successful frame draw yields windows that lie fully inside the
record and equal the signal/label slices at the drawn frame start. -/
theorem sampleFrame_ok_bounds (frame_size : Nat) (so eo ns : Int) (nl : Nat)
    (data : Int → Nat → Int) (labels : Int → Nat → Nat) (rl rf : Nat)
    (smp : SegSample) (hso : 0 ≤ so) (heo : 0 ≤ eo)
    (hok : sampleFrame frame_size so eo ns nl data labels rl rf = .ok smp) :
    ∃ fs lead, 0 ≤ fs ∧ fs + (frame_size : Int) ≤ ns ∧
      smp.x = (List.range frame_size).map (fun i => data (fs + (i : Int)) lead) ∧
      smp.y = (List.range frame_size).map (fun i => labels (fs + (i : Int)) lead) := by
  unfold sampleFrame at hok
  cases h1 : npRandint 0 (nl : Int) rl with
  | error e =>
    rw [h1] at hok
    exact absurd hok (by simp)
  | ok leadZ =>
    rw [h1] at hok
    cases h2 : npRandint so (ns - (frame_size : Int) - eo) rf with
    | error e =>
      rw [h2] at hok
      exact absurd hok (by simp)
    | ok fs =>
      rw [h2] at hok
      have hbounds := npRandint_ok so (ns - (frame_size : Int) - eo) rf fs h2
      refine ⟨fs, leadZ.toNat, ?_, ?_, ?_, ?_⟩
      · linarith [hbounds.1]
      · linarith [hbounds.2]
      · have := hok
        simp only [Except.ok.injEq] at this
        rw [← this]
      · have := hok
        simp only [Except.ok.injEq] at this
        rw [← this]

/-- C6: every `(signal_window, label_window)` pair the generator emits has
`0 ≤ frame_start` and `frame_start + frame_size ≤ num_samples`, and its
label window is exactly the slice
`[frame_start, frame_start + frame_size)` of the painted label buffer of
the chosen lead (the signal window is the matching signal slice). -/
theorem segmentation_generator_in_bounds (frame_size : Nat)
    (so eo ns : Int) (nl : Nat) (data : Int → Nat → Int) (segs : List SegInt)
    (rl rf : Nat → Nat) (n : Nat) (items : List SegSample)
    (hso : 0 ≤ so) (heo : 0 ≤ eo)
    (hok : segmentation_generator_pt frame_size so eo ns nl data segs rl rf n
      = .ok items) :
    ∀ smp ∈ items, ∃ fs lead, 0 ≤ fs ∧ fs + (frame_size : Int) ≤ ns ∧
      smp.x = (List.range frame_size).map (fun i => data (fs + (i : Int)) lead) ∧
      smp.y = (List.range frame_size).map
        (fun i => paintLabels segs (fs + (i : Int)) lead) := by
  induction n generalizing items with
  | zero =>
    simp only [segmentation_generator_pt, Except.ok.injEq] at hok
    subst hok
    intro smp hsmp
    cases hsmp
  | succ m ih =>
    simp only [segmentation_generator_pt] at hok
    cases hacc : segmentation_generator_pt frame_size so eo ns nl data segs rl rf m with
    | error e =>
      rw [hacc] at hok
      exact absurd hok (by simp)
    | ok acc =>
      rw [hacc] at hok
      cases hs : sampleFrame frame_size so eo ns nl data (paintLabels segs)
          (rl m) (rf m) with
      | error e =>
        rw [hs] at hok
        exact absurd hok (by simp)
      | ok smp' =>
        rw [hs] at hok
        simp only [Except.ok.injEq] at hok
        subst hok
        intro smp hsmp
        rcases List.mem_append.1 hsmp with hin | hin
        · exact ih acc hacc smp hin
        · have heq : smp = smp' := by simpa using hin
          subst heq
          exact sampleFrame_ok_bounds frame_size so eo ns nl data
            (paintLabels segs) (rl m) (rf m) smp hso heo hs

/-- Witness for `segmentation_generator_in_bounds` at a concrete run that
emits one window. -/
theorem segmentation_generator_in_bounds_witness :
    ∃ fs lead, 0 ≤ fs ∧ fs + ((2 : Nat) : Int) ≤ 5 ∧
      (⟨[0, 0], [0, 0]⟩ : SegSample).x
        = (List.range 2).map (fun i => (fun _ _ => (0 : Int)) (fs + (i : Int)) lead) ∧
      (⟨[0, 0], [0, 0]⟩ : SegSample).y
        = (List.range 2).map (fun i => paintLabels [] (fs + (i : Int)) lead) :=
  segmentation_generator_in_bounds 2 0 0 5 1 (fun _ _ => 0) []
    (fun _ => 0) (fun _ => 0) 1 [⟨[0, 0], [0, 0]⟩] (by decide) (by decide)
    (by rfl) ⟨[0, 0], [0, 0]⟩ (by simp)

/-- State of `uniform_patient_generator` (ludb.py:163-195) after some
iterations of its while-loop body.  `caller` is the array the caller
passed in; the `np.copy` on ludb.py:182 gives the generator its own
independent array, held in `arr` while the loop is live and `none` once
the `break` on ludb.py:194 has run. -/
structure UPGState (α : Type) where
  caller : List α
  emitted : List α
  arr : Option (List α)
  deriving DecidableEq, Repr

/-- One iteration of the while-loop body (ludb.py:183-194): when `shuffle`,
permute the private array in place (the permutation drawn for pass `k` is
`σ k`), yield every patient id of the array in order, then exit the loop
unless `rep`. -/
def upgStep {α : Type} (rep shuffle : Bool) (σ : Nat → List α → List α)
    (k : Nat) (s : UPGState α) : UPGState α :=
  match s.arr with
  | none => s
  | some a =>
    let a2 := if shuffle then σ k a else a
    ⟨s.caller, s.emitted ++ a2, if rep then some a2 else none⟩

/-- The generator started on `ids` after `n` iterations of the while-loop
body. -/
def upgRun {α : Type} (ids : List α) (rep shuffle : Bool)
    (σ : Nat → List α → List α) : Nat → UPGState α
  | 0 => ⟨ids, [], some ids⟩
  | n+1 => upgStep rep shuffle σ n (upgRun ids rep shuffle σ n)

/-- A finished loop state is a fixed point of the loop body. -/
theorem upgStep_none {α : Type} (rep shuffle : Bool)
    (σ : Nat → List α → List α) (k : Nat) (s : UPGState α)
    (h : s.arr = none) : upgStep rep shuffle σ k s = s := by
  unfold upgStep
  rw [h]

/-- With `rep = true` the private array is always live and is a permutation
of the caller's ids. -/
theorem upgRun_repeat_arr {α : Type} (ids : List α) (shuffle : Bool)
    (σ : Nat → List α → List α) (hσ : ∀ k l, List.Perm (σ k l) l) (n : Nat) :
    ∃ a, (upgRun ids true shuffle σ n).arr = some a ∧ List.Perm a ids := by
  induction n with
  | zero => exact ⟨ids, rfl, List.Perm.refl ids⟩
  | succ m ih =>
    obtain ⟨a, ha, hap⟩ := ih
    refine ⟨if shuffle then σ m a else a, ?_, ?_⟩
    · show (upgStep true shuffle σ m (upgRun ids true shuffle σ m)).arr = _
      unfold upgStep
      rw [ha]
      rfl
    · cases hsh : shuffle with
      | true => simpa using (hσ m a).trans hap
      | false => simpa using hap

/-- C7: with `repeat = false` the generator emits exactly one item per id —
`ids.length` items forming a permutation of `ids` (the identity order when
`shuffle` is off) — and the loop has terminated after that single pass, so
no later iteration changes anything; with `repeat = true` the loop never
terminates and every further pass appends a block that contains each id
exactly once (a fresh permutation `σ k` is drawn at the start of pass `k`
when `shuffle` is on). -/
theorem uniform_patient_generator_passes {α : Type} (ids : List α)
    (shuffle : Bool) (σ : Nat → List α → List α)
    (hσ : ∀ k l, List.Perm (σ k l) l) :
    ((upgRun ids false shuffle σ 1).emitted.length = ids.length
      ∧ List.Perm (upgRun ids false shuffle σ 1).emitted ids
      ∧ ∀ n, 1 ≤ n → upgRun ids false shuffle σ n = upgRun ids false shuffle σ 1)
  ∧ (∀ n, (upgRun ids true shuffle σ n).arr ≠ none)
  ∧ (∀ n, ∃ c, (upgRun ids true shuffle σ (n + 1)).emitted
        = (upgRun ids true shuffle σ n).emitted ++ c ∧ List.Perm c ids) := by
  have hrun1 : upgRun ids false shuffle σ 1
      = ⟨ids, [] ++ (if shuffle then σ 0 ids else ids), none⟩ := rfl
  have hperm1 : List.Perm (if shuffle then σ 0 ids else ids) ids := by
    cases hsh : shuffle with
    | true => simpa using hσ 0 ids
    | false => simp
  refine ⟨⟨?_, ?_, ?_⟩, ?_, ?_⟩
  · rw [hrun1]
    simpa using hperm1.length_eq
  · rw [hrun1]
    simpa using hperm1
  · intro n hn
    induction n with
    | zero => omega
    | succ m ihm =>
      rcases Nat.eq_zero_or_pos m with h0 | hm
      · subst h0
        rfl
      · have hstep := ihm hm
        show upgStep false shuffle σ m (upgRun ids false shuffle σ m)
          = upgRun ids false shuffle σ 1
        rw [hstep]
        rw [upgStep_none false shuffle σ m _ (by rw [hrun1])]
  · intro n
    obtain ⟨a, ha, _⟩ := upgRun_repeat_arr ids shuffle σ hσ n
    rw [ha]
    intro hc
    cases hc
  · intro n
    obtain ⟨a, ha, hap⟩ := upgRun_repeat_arr ids shuffle σ hσ n
    refine ⟨if shuffle then σ n a else a, ?_, ?_⟩
    · show (upgStep true shuffle σ n (upgRun ids true shuffle σ n)).emitted = _
      unfold upgStep
      rw [ha]
    · cases hsh : shuffle with
      | true => simpa using (hσ n a).trans hap
      | false => simpa using hap

/-- Witness for `uniform_patient_generator_passes`: one non-repeating pass
over three ids with a concrete shuffle emits exactly 3 items. -/
theorem uniform_patient_generator_passes_witness :
    (upgRun [1, 2, 3] false true (fun _ l => l.reverse) 1).emitted.length = 3 :=
  (uniform_patient_generator_passes [1, 2, 3] true (fun _ l => l.reverse)
    (fun _ l => List.reverse_perm l)).1.1

/-- C9: the generator never writes the caller's array: shuffling acts on
the private copy made by `np.copy` (ludb.py:182), so after any number of
loop iterations — any `repeat`/`shuffle` mode, any permutations drawn — the
caller's array holds the same elements in the same order as before. -/
theorem uniform_patient_generator_caller_unchanged {α : Type} (ids : List α)
    (rep shuffle : Bool) (σ : Nat → List α → List α) (n : Nat) :
    (upgRun ids rep shuffle σ n).caller = ids := by
  induction n with
  | zero => rfl
  | succ m ih =>
    show (upgStep rep shuffle σ m (upgRun ids rep shuffle σ m)).caller = ids
    unfold upgStep
    cases h : (upgRun ids rep shuffle σ m).arr with
    | none => exact ih
    | some a => exact ih

/-- The destination store: patient id ↦ the container file's content
(the interval and fiducial arrays written on ludb.py:249-253; the signal
matrix plays no role in the skip/overwrite behaviour and is omitted). -/
abbrev StoreC := List (Nat × (List SegInt × List FidPt))

/-- Look a patient's container up in the store. -/
def storeLookup (store : StoreC) (pid : Nat) :
    Option (List SegInt × List FidPt) :=
  (store.find? (fun e => e.1 == pid)).map Prod.snd

/-- Opening a patient's HDF5 file in mode "w" and writing it
(ludb.py:249-253) replaces whatever container the id had. -/
def storeWrite (store : StoreC) (pid : Nat)
    (c : List SegInt × List FidPt) : StoreC :=
  (pid, c) :: store.filter (fun e => e.1 != pid)

/-- The reconstruction half of `convert_pt_wfdb_to_hdf5` (ludb.py:218-242):
scan every lead's marker stream, accumulating intervals and fiducials
across leads in lead order. -/
def convertRaw (leads : List (Nat × List (Char × Nat))) :
    List SegInt × List FidPt :=
  leads.foldl (fun acc l =>
    (acc.1 ++ (annScan l.1 l.2).segs, acc.2 ++ (annScan l.1 l.2).fids)) ([], [])

/-- Store effect of `convert_pt_wfdb_to_hdf5` (ludb.py:197-256).  The
`force` flag is accepted (ludb.py:198) but never read in the body, and no
existence check is made: with a destination path set, the function always
opens the patient's file in mode "w" and writes it (ludb.py:246-254).
Returns the updated store and the number of container files written. -/
def convert_pt_wfdb_to_hdf5 (force : Bool)
    (raw : Nat → List (Nat × List (Char × Nat))) (store : StoreC)
    (pid : Nat) : StoreC × Nat :=
  (storeWrite store pid (convertRaw (raw pid)), 1)

/-- Store effect of `convert_dataset_zip_to_hdf5` (ludb.py:285-318): run
the per-patient conversion over every requested id, threading the store
and counting container writes. -/
def convert_dataset_zip_to_hdf5 (force : Bool)
    (raw : Nat → List (Nat × List (Char × Nat))) (store : StoreC)
    (pids : List Nat) : StoreC × Nat :=
  pids.foldl (fun acc pid =>
    let r := convert_pt_wfdb_to_hdf5 force raw acc.1 pid
    (r.1, acc.2 + r.2)) (store, 0)

/-- C2, failing input evaluated: a single patient id whose destination
container already exists, re-converted with `force = false`.  The run
performs one container write — not zero — and destructively overwrites the
previously stored container, because `convert_pt_wfdb_to_hdf5` never reads
its `force` flag and never checks for an existing destination file. -/
theorem bulk_reconvert_overwrites :
    (convert_dataset_zip_to_hdf5 false (fun _ => [])
        [(1, ([⟨0, 2, 100, 120⟩], []))] [1]).2 = 1
  ∧ storeLookup (convert_dataset_zip_to_hdf5 false (fun _ => [])
        [(1, ([⟨0, 2, 100, 120⟩], []))] [1]).1 1 = some ([], [])
  ∧ storeLookup [(1, ([⟨0, 2, 100, 120⟩], []))] 1
      = some ([⟨0, 2, 100, 120⟩], []) := by decide

/-- Every bulk run writes one container per requested id, independently of
`force` and of what the store already holds. -/
theorem bulk_write_count (force : Bool)
    (raw : Nat → List (Nat × List (Char × Nat))) (store : StoreC)
    (pids : List Nat) :
    (convert_dataset_zip_to_hdf5 force raw store pids).2 = pids.length := by
  have hgen : ∀ (st : StoreC) (k : Nat),
      (pids.foldl (fun acc pid =>
        let r := convert_pt_wfdb_to_hdf5 force raw acc.1 pid
        (r.1, acc.2 + r.2)) (st, k)).2 = k + pids.length := by
    induction pids with
    | nil =>
      intro st k
      simp
    | cons p ps ih =>
      intro st k
      rw [List.foldl_cons]
      have h2 := ih (storeWrite st p (convertRaw (raw p))) (k + 1)
      have h3 : (k + 1) + ps.length = k + (p :: ps).length := by
        simp only [List.length_cons]
        omega
      exact h2.trans h3
  rw [convert_dataset_zip_to_hdf5, hgen store 0]
  omega

end Ludb
